import Mathlib

/-!
Verification of the superlight-client core (`src/implementation/src/prover/iprover.ts`
and `src/implementation/src/store/dummy-store.ts`) against its specification.

Byte strings (`Uint8Array`) are modelled as `List Nat`.  The hash primitive
(`digest` from as-sha256) and the BLS signature primitives are external
libraries; they are parameters of the embedding.  JavaScript runtime failures
are modelled explicitly: `JsError.typeError` stands for a thrown `TypeError`
(dereferencing / iterating `undefined`, calling a missing method), and
`JsError.thrown msg` stands for an explicit `throw new Error(msg)` or a throw
escaping from a library call.  Remote provers are modelled as records of
response functions: each prover method is a pure function from the query
arguments to the reply, mirroring the `IProver` interface.
-/

namespace Superlight

/-- Byte strings (`Uint8Array`) as lists of naturals. -/
abbrev Bytes := List Nat

/-- One MMR peak, `{ rootHash, size }`, from `merkle-mountain-range`. -/
structure Peak where
  rootHash : Bytes
  size : Nat
deriving DecidableEq

/-- `Peaks` from `merkle-mountain-range`. -/
abbrev Peaks := List Peak

/-- JavaScript-level failures of the client. -/
inductive JsError where
  | typeError
  | thrown (msg : String)
deriving DecidableEq

/-- Reply of `IProver.getNode`: `{ isLeaf: bool, children?: Uint8Array[] }`.
The `children` field is optional in the interface, hence `Option`. -/
structure NodeInfo where
  isLeaf : Bool
  children : Option (List Bytes)

/-- Reply of `IProver.getLeafWithProof`. -/
structure LeafWithProof where
  syncCommittee : List Bytes
  rootHash : Bytes
  proof : List (List Bytes)

/-- Reply of `IProver.getMMRInfo`. -/
structure MMRInfo where
  rootHash : Bytes
  peaks : Peaks

/-- A prover object as the client consumes it.  `getLeafWithProof` takes
`Option Nat`, `none` standing for the literal `'latest'`.  The interface
`IProver` declares `getSyncUpdates`; the client additionally invokes a
`getSyncUpdate` method that the interface does not declare, so that method is
modelled as `Option`al: `none` for an object implementing exactly `IProver`
(calling it is then a `TypeError`), `some f` for an object that happens to
carry it. -/
structure Prover (U : Type) where
  getLeafWithProof : Option Nat → LeafWithProof
  getMMRInfo : MMRInfo
  getNode : Bytes → Bytes → NodeInfo
  getSyncUpdates : Nat → Nat → List U
  getSyncUpdate : Option (Nat → Nat → U) := none

/-- The sync-store interface consumed by the client (`ISyncStoreVerifer`).
`syncUpdateVerify` may itself throw (see `dummySyncUpdateVerify`), hence the
`Except` result. -/
structure StoreVerifier (U : Type) where
  genesisCommittee : List Bytes
  genesisPeriod : Nat
  currentPeriod : Nat
  syncUpdateVerify : List Bytes → List Bytes → U → Except JsError Bool

/-- The `SuperlightClient` instance data: store, prover list, fan-out `n`
(default 2) and the hash primitive. -/
structure Client (U : Type) where
  store : StoreVerifier U
  provers : List (Prover U)
  n : Nat := 2
  digest : Bytes → Bytes

/-- `ProverInfo` from `iprover.ts`: `{ root, peaks, index, syncCommittee? }`. -/
structure ProverInfo where
  root : Bytes
  peaks : Peaks
  index : Nat
  syncCommittee : Option (List Bytes) := none
deriving DecidableEq

/-- Insert `x` at position `i` of a list (used to place the running hash among
the `n - 1` sibling hashes of one proof level). -/
def insertAt {α : Type} (i : Nat) (x : α) (l : List α) : List α :=
  l.take i ++ x :: l.drop i

/-- Modelled from the spec: `utils.ts` is not under `src/`; its `logFloor(x, n)`
is the floor of the base-`n` logarithm of `x` (the spec uses
`depth = log_n(peak.size)` where `size` is a power of `n`).  Fuel-based so the
definition is structural. -/
def logFloorGo (n : Nat) : Nat → Nat → Nat
  | 0, _ => 0
  | fuel + 1, x => if x < n then 0 else logFloorGo n fuel (x / n) + 1

/-- Modelled from the spec: `utils.ts` is not under `src/`.  `logFloor(x, n)`. -/
def logFloor (x n : Nat) : Nat :=
  logFloorGo n x x

/-- Little-endian base-`n` digits of a natural, fuel-based. -/
def baseDigitsGo (n : Nat) : Nat → Nat → List Nat
  | 0, _ => []
  | _ + 1, 0 => []
  | fuel + 1, v => (v % n) :: baseDigitsGo n fuel (v / n)

/-- Modelled from the spec: `merkle-mountain-range.ts` is not under `src/`.
The peak sizes of a well-formed MMR with `L` leaves are the positional base-`n`
digits of `L`, each non-zero digit `d` contributing `d` peaks of the
corresponding power of `n`, ordered most-significant (largest size) first. -/
def expectedPeakSizes (n L : Nat) : List Nat :=
  (List.flatten (((baseDigitsGo n L L).enum).map
    (fun kd => List.replicate kd.2 (n ^ kd.1)))).reverse

/-- Modelled from the spec: `merkle-mountain-range.ts` is not under `src/`.
Bagging rule: starting from the rightmost peak, fold left as
`acc <- H(concat(peak_i.rootHash, acc))`; an empty peak list bags to nothing. -/
def bagPeaks (digest : Bytes → Bytes) (peaks : Peaks) : Option Bytes :=
  match peaks.reverse with
  | [] => none
  | p :: rest => some (rest.foldl (fun acc q => digest (q.rootHash ++ acc)) p.rootHash)

/-- Modelled from the spec: `merkle-mountain-range.ts` is not under `src/`.
`MerkleMountainVerify.verify(root, peaks, leafCount)`: the peak sizes must be
the base-`n` digit decomposition of `leafCount` and the peaks must bag to
`root`. -/
def mmrVerify (digest : Bytes → Bytes) (n : Nat) (root : Bytes) (peaks : Peaks)
    (leafCount : Nat) : Bool :=
  (peaks.map Peak.size == expectedPeakSizes n leafCount) &&
    (match bagPeaks digest peaks with
     | some r => r == root
     | none => false)

/-- Modelled from the spec: `merkle-mountain-range.ts` is not under `src/`.
`getPeakAndIndex`: linear scan keeping a running offset, returning the first
peak whose prefix-sum range contains the global index, with the local in-tree
index. -/
def getPeakAndIndexGo : Peaks → Nat → Nat → Option (Peak × Nat)
  | [], _, _ => none
  | p :: rest, off, i =>
    if i < off + p.size then some (p, i - off)
    else getPeakAndIndexGo rest (off + p.size) i

/-- Modelled from the spec: `merkle-mountain-range.ts` is not under `src/`. -/
def getPeakAndIndex (peaks : Peaks) (i : Nat) : Option (Peak × Nat) :=
  getPeakAndIndexGo peaks 0 i

/-- Modelled from the spec: `merkle-tree.ts` is not under `src/`.  One level of
`MerkleVerify.verify`: at level `lvl` the proof holds the `n - 1` sibling
hashes ordered left-to-right excluding the current child, whose position is
`(index / n^lvl) mod n`; the parent is the hash of the concatenation.  A level
with a malformed sibling count fails. -/
def merkleVerifyGo (digest : Bytes → Bytes) (n : Nat) (index : Nat) :
    Nat → Bytes → List (List Bytes) → Option Bytes
  | _, acc, [] => some acc
  | lvl, acc, sibs :: rest =>
    if sibs.length = n - 1 then
      merkleVerifyGo digest n index (lvl + 1)
        (digest (List.flatten (insertAt ((index / n ^ lvl) % n) acc sibs))) rest
    else none

/-- Modelled from the spec: `merkle-tree.ts` is not under `src/`.
`MerkleVerify.verify(leafHash, index, root, proof)`: recompute the path from
the leaf through the proof levels and accept iff the result equals `root`;
malformed proofs yield `false`, never a throw. -/
def merkleVerify (digest : Bytes → Bytes) (n : Nat) (leafHash : Bytes)
    (index : Nat) (root : Bytes) (proof : List (List Bytes)) : Bool :=
  match merkleVerifyGo digest n index 0 leafHash proof with
  | some r => r == root
  | none => false

/-- Modelled from the spec: `utils.ts` is not under `src/`; its
`isCommitteeSame` realises the spec's comparison of two committees. -/
def isCommitteeSame (a b : List Bytes) : Bool :=
  a == b

/-- Embeds `SuperlightClient.getVerifiedSyncCommittee`.  `period = none` is
`'latest'`: the rightmost peak with local index `size - 1` is used; reading the
last peak of an empty peak list dereferences `undefined`.  Returns the
committee on a successful Merkle check, `none` (for `false`) otherwise. -/
def getVerifiedSyncCommittee {U : Type} (c : Client U) (p : Prover U)
    (period : Option Nat) (peaks : Peaks) : Except JsError (Option (List Bytes)) :=
  let lwp := p.getLeafWithProof period
  let pi : Except JsError (Peak × Nat) :=
    match period with
    | none =>
      match peaks.getLast? with
      | some lastPeak => .ok (lastPeak, lastPeak.size - 1)
      | none => .error .typeError
    | some per =>
      match getPeakAndIndex peaks per with
      | some x => .ok x
      | none => .error .typeError
  match pi with
  | .error e => .error e
  | .ok (peak, index) =>
    let leafHash := c.digest (List.flatten lwp.syncCommittee)
    if merkleVerify c.digest c.n leafHash index peak.rootHash lwp.proof then
      .ok (some lwp.syncCommittee)
    else
      .ok none

/-- The client's call `prover.getSyncUpdate(a, b)`: a `TypeError` when the
object does not carry that method (the `IProver` interface does not declare
it). -/
def callGetSyncUpdate {U : Type} (p : Prover U) (a b : Nat) : Except JsError U :=
  match p.getSyncUpdate with
  | some f => .ok (f a b)
  | none => .error .typeError

/-- Embeds `SuperlightClient.checkNodeAndPrevUpdate` (iprover.ts lines
78-143) faithfully, including the early returns on failed Merkle checks, the
genesis comparison at period 0, the `prover.getSyncUpdate(lastPeriod, 1)`
calls at period > 0, and the final adjudication chain with its
`both updates can not be correct` throw. -/
def checkNodeAndPrevUpdate {U : Type} (c : Client U) (p1 p2 : Prover U)
    (peaks1 peaks2 : Peaks) (period : Nat) : Except JsError Bool :=
  match getVerifiedSyncCommittee c p1 (some period) peaks1 with
  | .error e => .error e
  | .ok none => .ok false
  | .ok (some committee1) =>
    match getVerifiedSyncCommittee c p2 (some period) peaks2 with
    | .error e => .error e
    | .ok none => .ok true
    | .ok (some committee2) =>
      let adjudicate : Bool → Bool → Except JsError Bool := fun is1 is2 =>
        if is1 && !is2 then .ok true
        else if is2 && !is1 then .ok false
        else if !is2 && !is1 then .ok false
        else .error (.thrown "both updates can not be correct at the same time")
      if period = 0 then
        adjudicate (isCommitteeSame c.store.genesisCommittee committee1)
          (isCommitteeSame c.store.genesisCommittee committee2)
      else
        match getVerifiedSyncCommittee c p1 (some (period - 1)) peaks1 with
        | .error e => .error e
        | .ok none => .ok false
        | .ok (some prevCommittee) =>
          match callGetSyncUpdate p1 (period - 1) 1 with
          | .error e => .error e
          | .ok update1 =>
            match c.store.syncUpdateVerify prevCommittee committee1 update1 with
            | .error e => .error e
            | .ok is1 =>
              match callGetSyncUpdate p2 (period - 1) 1 with
              | .error e => .error e
              | .ok update2 =>
                match c.store.syncUpdateVerify prevCommittee committee2 update2 with
                | .error e => .error e
                | .ok is2 => adjudicate is1 is2

/-- Embeds `SuperlightClient.treeVsTree` (iprover.ts lines 145-197).  The
recursion is on `stepsToLeafs`.  `children!` followed by
`concatUint8Array(children)` throws a `TypeError` when the optional `children`
field is absent; prover 1's structural check runs before prover 2's reply is
inspected.  The result is the winner (`Sum.inl`) or the disputed leaf index
(`Sum.inr`). -/
def treeVsTree {U : Type} (c : Client U) (p1 p2 : Prover U) (tree1 tree2 : Bytes) :
    Nat → Bytes → Bytes → Nat → Except JsError (Bool ⊕ Nat)
  | 0, _, _, index => .ok (.inr index)
  | d + 1, node1, node2, index =>
    let info1 := p1.getNode tree1 node1
    let info2 := p2.getNode tree2 node2
    match info1.children with
    | none => .error .typeError
    | some children1 =>
      if children1.length ≠ c.n ∨ c.digest children1.flatten ≠ node1 then
        .ok (.inl false)
      else
        match info2.children with
        | none => .error .typeError
        | some children2 =>
          if children2.length ≠ c.n ∨ c.digest children2.flatten ≠ node2 then
            .ok (.inl true)
          else
            match (List.range c.n).find?
                (fun i => children1.getD i [] != children2.getD i []) with
            | some i =>
              treeVsTree c p1 p2 tree1 tree2 d
                (children1.getD i []) (children2.getD i []) (index * c.n + i)
            | none => .error (.thrown "all the children can not be same")

/-- Loop of `SuperlightClient.peaksVsPeaks`: walk the zipped peak lists keeping
the running global offset, and settle the first peak pair whose root hashes
differ by the bisection game. -/
def peaksVsPeaksGo {U : Type} (c : Client U) (p1 p2 : Prover U)
    (peaks1 peaks2 : Peaks) : List (Peak × Peak) → Nat → Except JsError Bool
  | [], _ => .error (.thrown "all peaks should not be same")
  | (a, b) :: rest, offset =>
    if a.rootHash = b.rootHash then
      peaksVsPeaksGo c p1 p2 peaks1 peaks2 rest (offset + a.size)
    else
      match treeVsTree c p1 p2 a.rootHash b.rootHash (logFloor a.size c.n)
          a.rootHash b.rootHash 0 with
      | .error e => .error e
      | .ok (.inl winner) => .ok winner
      | .ok (.inr idx) =>
        checkNodeAndPrevUpdate c p1 p2 peaks1 peaks2 (idx + offset)

/-- Embeds `SuperlightClient.peaksVsPeaks` (iprover.ts lines 200-241); `true`
iff the first prover wins. -/
def peaksVsPeaks {U : Type} (c : Client U) (p1 p2 : Prover U)
    (peaks1 peaks2 : Peaks) : Except JsError Bool :=
  if peaks1.length ≠ peaks2.length then
    .error (.thrown "there should be equal number of peaks")
  else
    peaksVsPeaksGo c p1 p2 peaks1 peaks2 (peaks1.zip peaks2) 0

/-- Loop of `SuperlightClient.tournament`, with the current `winners` list
split as head `w0` (the playing representative `winners[0]`) and tail `ws`.
The returned list of `(winners[0], challenger, result)` triples is ghost
instrumentation recording each `peaksVsPeaks` invocation; it does not alter
the control flow of the source loop. -/
def tournamentGo {U : Type} (c : Client U) :
    ProverInfo → List ProverInfo → List ProverInfo →
    List (ProverInfo × ProverInfo × Bool) →
    Except JsError (List ProverInfo × List (ProverInfo × ProverInfo × Bool))
  | w0, ws, [], games => .ok (w0 :: ws, games)
  | w0, ws, p :: rest, games =>
    if w0.root = p.root then
      tournamentGo c w0 (ws ++ [p]) rest games
    else
      match c.provers.get? w0.index, c.provers.get? p.index with
      | some pr1, some pr2 =>
        match peaksVsPeaks c pr1 pr2 w0.peaks p.peaks with
        | .error e => .error e
        | .ok honest =>
          if honest then
            tournamentGo c w0 ws rest (games ++ [(w0, p, honest)])
          else
            tournamentGo c p [] rest (games ++ [(w0, p, honest)])
      | _, _ => .error .typeError

/-- Embeds `SuperlightClient.tournament` (iprover.ts lines 244-277).  On an
empty survivor list the source reads `proverInfos[0]`, which is `undefined` in
JavaScript, and returns `[undefined]` without playing; the missing record is
modelled as `none`. -/
def tournament {U : Type} (c : Client U) (infos : List ProverInfo) :
    Except JsError (List (Option ProverInfo) × List (ProverInfo × ProverInfo × Bool)) :=
  match infos with
  | [] => .ok ([none], [])
  | p0 :: rest =>
    match tournamentGo c p0 [] rest [] with
    | .error e => .error e
    | .ok (ws, games) => .ok (ws.map some, games)

/-- The initial MMR audit of `SuperlightClient.sync`: query `getMMRInfo` of
every prover and keep `{root, peaks, index}` of those whose MMR verifies for
`mmrSize = currentPeriod - genesisPeriod + 1`. -/
def auditProvers {U : Type} (c : Client U) : List ProverInfo :=
  c.provers.enum.filterMap fun ip =>
    if mmrVerify c.digest c.n ip.2.getMMRInfo.rootHash ip.2.getMMRInfo.peaks
        (c.store.currentPeriod - c.store.genesisPeriod + 1) then
      some ⟨ip.2.getMMRInfo.rootHash, ip.2.getMMRInfo.peaks, ip.1, none⟩
    else
      none

/-- The final loop of `SuperlightClient.sync` over the tournament winners:
adopt the first winner whose `'latest'` committee passes
`getVerifiedSyncCommittee`, returning the single record
`{...winner, syncCommittee}`; if every winner fails,
`throw new Error('all winners cheated')`.  A `none` entry is the `undefined`
record produced by an empty survivor list; reading `winner.index` from it is a
`TypeError`. -/
def syncFinal {U : Type} (c : Client U) :
    List (Option ProverInfo) → Except JsError (List ProverInfo)
  | [] => .error (.thrown "all winners cheated")
  | none :: _ => .error .typeError
  | some w :: rest =>
    match c.provers.get? w.index with
    | none => .error .typeError
    | some pr =>
      match getVerifiedSyncCommittee c pr none w.peaks with
      | .error e => .error e
      | .ok (some sc) => .ok [{ w with syncCommittee := some sc }]
      | .ok none => syncFinal c rest

/-- Embeds `SuperlightClient.sync` (iprover.ts lines 281-329): audit, then
tournament, then the final latest-committee adoption loop. -/
def sync {U : Type} (c : Client U) : Except JsError (List ProverInfo) :=
  match tournament c (auditProvers c) with
  | .error e => .error e
  | .ok (winners, _) => syncFinal c winners

/-- `DummyHeader` from `dummy-store.ts`. -/
structure DummyHeader where
  nextCommittee : List Bytes
  epoch : Nat
deriving DecidableEq

/-- `DummyUpdate` from `dummy-store.ts`. -/
structure DummyUpdate where
  header : DummyHeader
  aggregateSignature : Bytes
deriving DecidableEq

/-- The external `@chainsafe/bls` operations consumed by
`DummyStoreVerifier.syncUpdateVerify`; each may throw. -/
structure BlsApi (PK Sig : Type) where
  pubkeyFromBytes : Bytes → Except JsError PK
  signatureFromBytes : Bytes → Except JsError Sig
  verifyAggregate : Sig → List PK → Bytes → Except JsError Bool

/-- `hashHeader` from `dummy-store.ts`:
`digest(concat([...header.nextCommittee, numberToUint8Array(header.epoch)]))`.
`numberToUint8Array` lives in the absent `utils.ts` and is passed in as an
encoding of naturals into bytes. -/
def hashHeader (digest : Bytes → Bytes) (numberToUint8Array : Nat → Bytes)
    (h : DummyHeader) : Bytes :=
  digest (List.flatten (h.nextCommittee ++ [numberToUint8Array h.epoch]))

/-- Modelled from the spec: `utils.ts` is not under `src/`.  Its
`isUint8ArrayEq` compares two byte strings; applying it to a missing
(`undefined`) array element is a runtime `TypeError`. -/
def isUint8ArrayEqU (a : Bytes) (b : Option Bytes) : Except JsError Bool :=
  match b with
  | some bb => .ok (a == bb)
  | none => .error .typeError

/-- The `currentCommittee.every((c, i) => isUint8ArrayEq(c, nextCommittee[i]))`
loop of `DummyStoreVerifier.syncUpdateVerify`: element `i` of `next` is read by
index and may be out of range. -/
def committeeEveryGo (next : List Bytes) : Nat → List Bytes → Except JsError Bool
  | _, [] => .ok true
  | i, cc :: rest =>
    match isUint8ArrayEqU cc next[i]? with
    | .error e => .error e
    | .ok false => .ok false
    | .ok true => committeeEveryGo next (i + 1) rest

/-- Embeds `DummyStoreVerifier.syncUpdateVerify` (dummy-store.ts lines
185-208).  Note the faithful placement of the try/catch: only
`Signature.fromBytes` and `verifyAggregate` are guarded; the
`prevCommittee.map(pk => PublicKey.fromBytes(pk))` on line 198 runs outside
the guard, so a parse failure there escapes the function. -/
def dummySyncUpdateVerify {PK Sig : Type} (bls : BlsApi PK Sig)
    (digest : Bytes → Bytes) (numberToUint8Array : Nat → Bytes)
    (prevCommittee currentCommittee : List Bytes) (update : DummyUpdate) :
    Except JsError Bool :=
  match committeeEveryGo update.header.nextCommittee 0 currentCommittee with
  | .error e => .error e
  | .ok false => .ok false
  | .ok true =>
    let headerHash := hashHeader digest numberToUint8Array update.header
    match prevCommittee.mapM bls.pubkeyFromBytes with
    | .error e => .error e
    | .ok committeeKeys =>
      match bls.signatureFromBytes update.aggregateSignature >>= fun s =>
          bls.verifyAggregate s committeeKeys headerHash with
      | .ok b => .ok b
      | .error _ => .ok false

/-- The adjudication table of spec section 4.5.5, written from the spec's
words for comparison with the code: A-only-correct wins for A, B-only-correct
wins for B, neither-correct returns `false`, both-correct is the fatal
committee-uniqueness abort. -/
def adjudicationTable (aOk bOk : Bool) : Except JsError Bool :=
  match aOk, bOk with
  | true, false => .ok true
  | false, true => .ok false
  | false, false => .ok false
  | true, true => .error (.thrown "both updates can not be correct at the same time")

/-- The structural check of one `getNode` reply at node `node`: the child
count equals the fan-out and the children hash back to the node. -/
def nodeCheckOk {U : Type} (c : Client U) (node : Bytes) (children : List Bytes) : Prop :=
  children.length = c.n ∧ c.digest children.flatten = node

/-- `out` is the adoption of the first winner in `winners` whose `'latest'`
committee passes the Merkle audit, all earlier winners having failed it. -/
def isFirstVerifiedWinner {U : Type} (c : Client U) :
    List (Option ProverInfo) → List ProverInfo → Prop
  | [], _ => False
  | none :: _, _ => False
  | some w :: rest, out =>
    ∃ pr, c.provers.get? w.index = some pr ∧
      ((∃ sc, getVerifiedSyncCommittee c pr none w.peaks = .ok (some sc) ∧
         out = [{ w with syncCommittee := some sc }]) ∨
       (getVerifiedSyncCommittee c pr none w.peaks = .ok none ∧
         isFirstVerifiedWinner c rest out))

/-- A concrete injective stand-in for the hash primitive, used in the
concrete evaluation scenarios below. -/
def consHash : Bytes → Bytes := fun l => 1 :: l

/-- The genesis committee of the concrete scenarios (one key, byte `5`). -/
def genCommittee : List Bytes := [[5]]

/-- Honest MMR root for `mmrSize = 1`: the hash of the single leaf, the
genesis committee. -/
def rootHonest : Bytes := consHash (List.flatten genCommittee)

/-- Honest peak list for `mmrSize = 1`: one peak of size 1. -/
def peaksHonest : Peaks := [⟨rootHonest, 1⟩]

/-- The committee of a self-consistent but dishonest chain. -/
def fakeCommittee : List Bytes := [[9]]

/-- MMR root committed by the dishonest-but-consistent prover. -/
def rootFake : Bytes := consHash (List.flatten fakeCommittee)

/-- Peak list of the dishonest-but-consistent prover. -/
def peaksFake : Peaks := [⟨rootFake, 1⟩]

/-- An honest prover for the one-period chain: commits the honest MMR and
serves the genesis committee with a valid (empty) Merkle proof for every
leaf query. -/
def proverHonest1 : Prover Unit where
  getLeafWithProof := fun _ => ⟨genCommittee, rootHonest, []⟩
  getMMRInfo := ⟨rootHonest, peaksHonest⟩
  getNode := fun _ _ => ⟨true, none⟩
  getSyncUpdates := fun _ _ => []
  getSyncUpdate := none

/-- A saboteur: it copies the honest prover's public MMR commitment (root and
peaks), so it passes the audit and pools with the honest prover, but it
answers every leaf query with garbage, deliberately losing any game it
plays. -/
def proverCopier : Prover Unit where
  getLeafWithProof := fun _ => ⟨[[7]], rootHonest, []⟩
  getMMRInfo := ⟨rootHonest, peaksHonest⟩
  getNode := fun _ _ => ⟨true, none⟩
  getSyncUpdates := fun _ _ => []
  getSyncUpdate := none

/-- A dishonest prover committed to its own internally consistent fake chain:
its fake committee verifies against its own MMR root. -/
def proverFakeChain : Prover Unit where
  getLeafWithProof := fun _ => ⟨fakeCommittee, rootFake, []⟩
  getMMRInfo := ⟨rootFake, peaksFake⟩
  getNode := fun _ _ => ⟨true, none⟩
  getSyncUpdates := fun _ _ => []
  getSyncUpdate := none

/-- Store of the one-period chain: genesis and current period are both 0, so
`mmrSize = 1` and the true latest committee is the genesis committee. -/
def storeOnePeriod : StoreVerifier Unit where
  genesisCommittee := genCommittee
  genesisPeriod := 0
  currentPeriod := 0
  syncUpdateVerify := fun _ _ _ => .ok false

/-- The root-copying scenario: prover 0 is the saboteur with the honest root,
prover 1 is honest, prover 2 commits a consistent fake chain. -/
def clientCopierScenario : Client Unit where
  store := storeOnePeriod
  provers := [proverCopier, proverHonest1, proverFakeChain]
  n := 2
  digest := consHash

/-- A client with a single honest prover over the one-period chain. -/
def clientSingleHonest : Client Unit where
  store := storeOnePeriod
  provers := [proverHonest1]
  n := 2
  digest := consHash

/-- A client whose prover set is empty, so the initial MMR audit filters
everything (vacuously). -/
def clientNoProvers : Client Unit where
  store := storeOnePeriod
  provers := []
  n := 2
  digest := consHash

/-- Left child of the concrete two-leaf node used in the `getNode`
scenarios. -/
def childA : Bytes := [3]

/-- Right child of the concrete two-leaf node. -/
def childB : Bytes := [4]

/-- A differing right child, for the bisection witness. -/
def childC : Bytes := [7]

/-- Hash of the node with children `childA`, `childB`. -/
def nodeAB : Bytes := consHash (childA ++ childB)

/-- Hash of the node with children `childA`, `childC`. -/
def nodeAC : Bytes := consHash (childA ++ childC)

/-- A prover answering every `getNode` query with the well-formed children
`[childA, childB]`. -/
def proverNodeAB : Prover Unit where
  getLeafWithProof := fun _ => ⟨genCommittee, rootHonest, []⟩
  getMMRInfo := ⟨rootHonest, peaksHonest⟩
  getNode := fun _ _ => ⟨false, some [childA, childB]⟩
  getSyncUpdates := fun _ _ => []
  getSyncUpdate := none

/-- A prover answering every `getNode` query with the well-formed children
`[childA, childC]`. -/
def proverNodeAC : Prover Unit where
  getLeafWithProof := fun _ => ⟨genCommittee, rootHonest, []⟩
  getMMRInfo := ⟨rootHonest, peaksHonest⟩
  getNode := fun _ _ => ⟨false, some [childA, childC]⟩
  getSyncUpdates := fun _ _ => []
  getSyncUpdate := none

/-- A prover whose `getNode` reply carries children that do not hash back to
the queried node (a malformed reply with the `children` field present). -/
def proverNodeBadHash : Prover Unit where
  getLeafWithProof := fun _ => ⟨genCommittee, rootHonest, []⟩
  getMMRInfo := ⟨rootHonest, peaksHonest⟩
  getNode := fun _ _ => ⟨false, some [[9], [9]]⟩
  getSyncUpdates := fun _ _ => []
  getSyncUpdate := none

/-- A prover whose `getNode` reply omits the optional `children` field
entirely (`{ isLeaf: true }`), as the `IProver` interface permits. -/
def proverNodeNoChildren : Prover Unit where
  getLeafWithProof := fun _ => ⟨genCommittee, rootHonest, []⟩
  getMMRInfo := ⟨rootHonest, peaksHonest⟩
  getNode := fun _ _ => ⟨true, none⟩
  getSyncUpdates := fun _ _ => []
  getSyncUpdate := none

/-- Client used by the `getNode`-level scenarios (its prover list is not
consulted by `treeVsTree`). -/
def clientNodeScenario : Client Unit where
  store := storeOnePeriod
  provers := []
  n := 2
  digest := consHash

/-- Period-0 committee of the concrete two-period chain. -/
def committeeP0 : List Bytes := [[3]]

/-- Period-1 committee of the concrete two-period chain. -/
def committeeP1 : List Bytes := [[4]]

/-- A deviating period-1 committee. -/
def committeeP1Bad : List Bytes := [[7]]

/-- Leaf hash of period 0. -/
def leafP0 : Bytes := consHash (List.flatten committeeP0)

/-- Leaf hash of period 1. -/
def leafP1 : Bytes := consHash (List.flatten committeeP1)

/-- Leaf hash of the deviating period-1 committee. -/
def leafP1Bad : Bytes := consHash (List.flatten committeeP1Bad)

/-- Root of the honest two-leaf Merkle tree (one peak of size 2). -/
def rootTwo : Bytes := consHash (leafP0 ++ leafP1)

/-- Root of the deviating two-leaf tree. -/
def rootTwoBad : Bytes := consHash (leafP0 ++ leafP1Bad)

/-- Honest peak list for `mmrSize = 2`. -/
def peaksTwo : Peaks := [⟨rootTwo, 2⟩]

/-- Deviating peak list for `mmrSize = 2`. -/
def peaksTwoBad : Peaks := [⟨rootTwoBad, 2⟩]

/-- A prover implementing exactly the declared `IProver` interface (in
particular it carries `getSyncUpdates` but no `getSyncUpdate` method),
honest for the two-period chain. -/
def proverIfaceHonest : Prover Unit where
  getLeafWithProof := fun per =>
    match per with
    | some 0 => ⟨committeeP0, rootTwo, [[leafP1]]⟩
    | _ => ⟨committeeP1, rootTwo, [[leafP0]]⟩
  getMMRInfo := ⟨rootTwo, peaksTwo⟩
  getNode := fun _ _ => ⟨false, some [leafP0, leafP1]⟩
  getSyncUpdates := fun _ _ => []
  getSyncUpdate := none

/-- A second interface-only prover, deviating from the honest chain at
period 1. -/
def proverIfaceDeviant : Prover Unit where
  getLeafWithProof := fun per =>
    match per with
    | some 0 => ⟨committeeP0, rootTwoBad, [[leafP1Bad]]⟩
    | _ => ⟨committeeP1Bad, rootTwoBad, [[leafP0]]⟩
  getMMRInfo := ⟨rootTwoBad, peaksTwoBad⟩
  getNode := fun _ _ => ⟨false, some [leafP0, leafP1Bad]⟩
  getSyncUpdates := fun _ _ => []
  getSyncUpdate := none

/-- Store of the two-period chain (`mmrSize = 2`). -/
def storeTwoPeriods : StoreVerifier Unit where
  genesisCommittee := committeeP0
  genesisPeriod := 0
  currentPeriod := 1
  syncUpdateVerify := fun _ _ _ => .ok false

/-- Client for the two-period, interface-only-prover scenario. -/
def clientIfaceScenario : Client Unit where
  store := storeTwoPeriods
  provers := [proverIfaceHonest, proverIfaceDeviant]
  n := 2
  digest := consHash

/-- A concrete model of the `@chainsafe/bls` primitives in which the byte
string `[0]` is an invalid public-key encoding: `PublicKey.fromBytes` throws
on it, as the real library does on a malformed encoding. -/
def toyBls : BlsApi Unit Unit where
  pubkeyFromBytes := fun b =>
    if b == [0] then .error (.thrown "pubkey deserialization failed") else .ok ()
  signatureFromBytes := fun _ => .ok ()
  verifyAggregate := fun _ _ _ => .ok false

/-- Concrete byte encoding of naturals for the dummy-store scenarios
(`numberToUint8Array`). -/
def numBytes : Nat → Bytes := fun k => [k]

/-- A concrete update whose `nextCommittee` equals the current committee of
the `c6` scenario, so the committee comparison passes and the key parsing is
reached. -/
def updateBadPrev : DummyUpdate := ⟨⟨[[2]], 0⟩, [6]⟩

/-- The audited record of the saboteur (prover 0 of the copier scenario). -/
def infoCopier : ProverInfo := ⟨rootHonest, peaksHonest, 0, none⟩

/-- The audited record of the consistent fake prover (prover 2 of the copier
scenario). -/
def infoFake : ProverInfo := ⟨rootFake, peaksFake, 2, none⟩

/-- The first index of `List.range n` satisfying `p`, when `j < n` satisfies
`p` and everything below `j` does not. -/
theorem findRangeSome : ∀ (n : Nat) (p : Nat → Bool) (j : Nat), j < n → p j = true →
    (∀ i, i < j → p i = false) → (List.range n).find? p = some j := by
  intro n
  induction n with
  | zero => intro p j h _ _; exact absurd h (Nat.not_lt_zero j)
  | succ n ih =>
    intro p j hj hpj hmin
    rw [List.range_succ_eq_map, List.find?_cons]
    cases j with
    | zero => simp [hpj]
    | succ j =>
      have h0 : p 0 = false := hmin 0 (Nat.succ_pos j)
      rw [h0]
      simp only [List.find?_map]
      have hres := ih (fun i => p (i + 1)) j (Nat.lt_of_succ_lt_succ hj) hpj
        (fun i hi => hmin (i + 1) (Nat.succ_lt_succ hi))
      rw [show (p ∘ Nat.succ) = (fun i => p (i + 1)) from rfl, hres]
      rfl

/-- `List.range n` has no element satisfying `p` when no index below `n`
does. -/
theorem findRangeNone (n : Nat) (p : Nat → Bool) (h : ∀ i, i < n → p i = false) :
    (List.range n).find? p = none := by
  rw [List.find?_eq_none]
  intro x hx
  rw [List.mem_range] at hx
  simp [h x hx]

/-- A successful `syncFinal` run produces a single record, the adoption of
the first winner whose latest committee verifies. -/
theorem syncFinalOkChar {U : Type} (c : Client U) :
    ∀ ws out, syncFinal c ws = .ok out → out.length = 1 ∧ isFirstVerifiedWinner c ws out := by
  intro ws
  induction ws with
  | nil => intro out h; exact absurd h (by simp [syncFinal])
  | cons ow rest ih =>
    intro out h
    cases ow with
    | none => exact absurd h (by simp [syncFinal])
    | some w =>
      simp only [syncFinal] at h
      cases hget : c.provers.get? w.index with
      | none => rw [hget] at h; exact absurd h (by simp)
      | some pr =>
        rw [hget] at h
        dsimp only at h
        cases hvsc : getVerifiedSyncCommittee c pr none w.peaks with
        | error e => rw [hvsc] at h; exact absurd h (by simp)
        | ok sc? =>
          rw [hvsc] at h
          cases sc? with
          | some sc =>
            dsimp only at h
            injection h with h'
            subst h'
            exact ⟨rfl, pr, hget, Or.inl ⟨sc, hvsc, rfl⟩⟩
          | none =>
            dsimp only at h
            have hr := ih out h
            exact ⟨hr.1, pr, hget, Or.inr ⟨hvsc, hr.2⟩⟩

/-- Claim C1: the claimed guarantee — with at least one honest prover,
`sync()` returns only records carrying the honest prover's true latest
committee — fails on the code.  In this concrete one-period scenario prover 1
is honest (its MMR commitment is the honest one and, as the last conjunct
shows, its latest committee verifies and is the genesis committee, the true
latest committee).  Prover 0 copies the honest prover's public MMR
commitment, so it passes the audit and pools with the honest prover, then
deliberately loses its game as `winners[0]`, eliminating the whole honest
pool; prover 2's internally consistent fake chain wins the tournament and
`sync()` returns its fake committee. -/
theorem c1_sync_adopts_fake_committee_despite_honest_prover :
    sync clientCopierScenario = .ok [⟨rootFake, peaksFake, 2, some fakeCommittee⟩] ∧
    clientCopierScenario.provers.get? 1 = some proverHonest1 ∧
    getVerifiedSyncCommittee clientCopierScenario proverHonest1 none peaksHonest =
      .ok (some genCommittee) ∧
    genCommittee = clientCopierScenario.store.genesisCommittee ∧
    fakeCommittee ≠ genCommittee := by
  refine ⟨rfl, rfl, rfl, rfl, by decide⟩

/-- Claim C2: once both sides' committees at the disputed period pass their
Merkle checks, `checkNodeAndPrevUpdate` follows the adjudication table, where
a side is correct iff its committee equals the genesis committee (period 0)
or iff `syncUpdateVerify` succeeds with the verified previous committee
(period > 0): A-only-correct returns `true`, B-only-correct returns `false`,
neither returns `false`, and both-correct aborts with the fatal error. -/
theorem c2_checkNodeAndPrevUpdate_follows_adjudication_table {U : Type}
    (c : Client U) (p1 p2 : Prover U) (peaks1 peaks2 : Peaks)
    (period : Nat) (committee1 committee2 : List Bytes) (b1 b2 : Bool)
    (h1 : getVerifiedSyncCommittee c p1 (some period) peaks1 = .ok (some committee1))
    (h2 : getVerifiedSyncCommittee c p2 (some period) peaks2 = .ok (some committee2))
    (hz : period = 0 → b1 = isCommitteeSame c.store.genesisCommittee committee1 ∧
      b2 = isCommitteeSame c.store.genesisCommittee committee2)
    (hp : period ≠ 0 → ∃ prev u1 u2,
      getVerifiedSyncCommittee c p1 (some (period - 1)) peaks1 = .ok (some prev) ∧
      callGetSyncUpdate p1 (period - 1) 1 = .ok u1 ∧
      c.store.syncUpdateVerify prev committee1 u1 = .ok b1 ∧
      callGetSyncUpdate p2 (period - 1) 1 = .ok u2 ∧
      c.store.syncUpdateVerify prev committee2 u2 = .ok b2) :
    checkNodeAndPrevUpdate c p1 p2 peaks1 peaks2 period = adjudicationTable b1 b2 := by
  unfold checkNodeAndPrevUpdate
  rw [h1]
  dsimp only
  rw [h2]
  dsimp only
  by_cases h0 : period = 0
  · rw [if_pos h0]
    obtain ⟨e1, e2⟩ := hz h0
    rw [← e1, ← e2]
    cases b1 <;> cases b2 <;> rfl
  · rw [if_neg h0]
    obtain ⟨prev, u1, u2, hprev, hu1, hv1, hu2, hv2⟩ := hp h0
    rw [hprev]
    dsimp only
    rw [hu1]
    dsimp only
    rw [hv1]
    dsimp only
    rw [hu2]
    dsimp only
    rw [hv2]
    dsimp only
    cases b1 <;> cases b2 <;> rfl

/-- Witness for claim C2 at period 0 with an honest A (committee equal to
genesis) and a deviating B: the verdict is the table's A-wins entry,
`.ok true`. -/
theorem c2_adjudication_table_witness :
    checkNodeAndPrevUpdate clientCopierScenario proverHonest1 proverFakeChain
      peaksHonest peaksFake 0 = adjudicationTable true false ∧
    adjudicationTable true false = .ok true := by
  constructor
  · exact c2_checkNodeAndPrevUpdate_follows_adjudication_table clientCopierScenario
      proverHonest1 proverFakeChain peaksHonest peaksFake 0
      genCommittee fakeCommittee true false rfl rfl
      (fun _ => ⟨rfl, rfl⟩) (fun hne => absurd rfl hne)
  · rfl

/-- Claim C3: `treeVsTree` at depth 0 returns the accumulated in-tree leaf
index; at depth `d + 1`, when both replies pass the structural checks, it
recurses on the smallest child index `j` where the two child arrays differ,
with depth `d` and accumulated index `index * n + j`, and it throws the fatal
protocol-invariant error when all `n` child pairs are equal. -/
theorem c3_treeVsTree_bisection_steps {U : Type} (c : Client U) (p1 p2 : Prover U)
    (t1 t2 : Bytes) :
    (∀ n1 n2 idx, treeVsTree c p1 p2 t1 t2 0 n1 n2 idx = .ok (.inr idx)) ∧
    (∀ d n1 n2 idx ch1 ch2 j,
      (p1.getNode t1 n1).children = some ch1 →
      (p2.getNode t2 n2).children = some ch2 →
      nodeCheckOk c n1 ch1 → nodeCheckOk c n2 ch2 →
      j < c.n → ch1.getD j [] ≠ ch2.getD j [] →
      (∀ i, i < j → ch1.getD i [] = ch2.getD i []) →
      treeVsTree c p1 p2 t1 t2 (d + 1) n1 n2 idx =
        treeVsTree c p1 p2 t1 t2 d (ch1.getD j []) (ch2.getD j []) (idx * c.n + j)) ∧
    (∀ d n1 n2 idx ch1 ch2,
      (p1.getNode t1 n1).children = some ch1 →
      (p2.getNode t2 n2).children = some ch2 →
      nodeCheckOk c n1 ch1 → nodeCheckOk c n2 ch2 →
      (∀ i, i < c.n → ch1.getD i [] = ch2.getD i []) →
      treeVsTree c p1 p2 t1 t2 (d + 1) n1 n2 idx =
        .error (.thrown "all the children can not be same")) := by
  refine ⟨fun n1 n2 idx => rfl, ?_, ?_⟩
  · intro d n1 n2 idx ch1 ch2 j h1 h2 hok1 hok2 hj hdiff hmin
    obtain ⟨hlen1, hdig1⟩ := hok1
    obtain ⟨hlen2, hdig2⟩ := hok2
    have hfind : (List.range c.n).find? (fun i => ch1.getD i [] != ch2.getD i []) = some j := by
      refine findRangeSome c.n _ j hj (bne_iff_ne.mpr hdiff) ?_
      intro i hi
      exact bne_eq_false_iff_eq.mpr (hmin i hi)
    simp only [treeVsTree]
    rw [h1]
    dsimp only
    rw [if_neg (by push_neg; exact ⟨hlen1, hdig1⟩)]
    rw [h2]
    dsimp only
    rw [if_neg (by push_neg; exact ⟨hlen2, hdig2⟩)]
    rw [hfind]
  · intro d n1 n2 idx ch1 ch2 h1 h2 hok1 hok2 hall
    obtain ⟨hlen1, hdig1⟩ := hok1
    obtain ⟨hlen2, hdig2⟩ := hok2
    have hfind : (List.range c.n).find? (fun i => ch1.getD i [] != ch2.getD i []) = none := by
      refine findRangeNone c.n _ ?_
      intro i hi
      exact bne_eq_false_iff_eq.mpr (hall i hi)
    simp only [treeVsTree]
    rw [h1]
    dsimp only
    rw [if_neg (by push_neg; exact ⟨hlen1, hdig1⟩)]
    rw [h2]
    dsimp only
    rw [if_neg (by push_neg; exact ⟨hlen2, hdig2⟩)]
    rw [hfind]

/-- Witness for claim C3: two well-formed nodes differing in their second
child bisect one level (index becomes `0 * 2 + 1`) and the depth-0 call then
reports leaf index 1. -/
theorem c3_treeVsTree_bisection_witness :
    treeVsTree clientNodeScenario proverNodeAB proverNodeAC nodeAB nodeAC 1 nodeAB nodeAC 0 =
      .ok (.inr 1) := by
  have h := c3_treeVsTree_bisection_steps clientNodeScenario proverNodeAB proverNodeAC
    nodeAB nodeAC
  have step := h.2.1 0 nodeAB nodeAC 0 [childA, childB] [childA, childC] 1 rfl rfl
    ⟨rfl, rfl⟩ ⟨rfl, rfl⟩ (by decide) (by decide)
    (fun i hi => by
      have hz : i = 0 := by omega
      subst hz
      rfl)
  rw [step]
  exact h.1 _ _ _

/-- Claim C4: the structural checks do run in order — a prover-1 reply
failing its check loses immediately (first conjunct, where prover 2's reply
is also malformed yet prover 1 still loses first) — but the further part of
the claim is false on the code: a `getNode` reply in which the optional
`children` field is absent does not make the offending prover lose; the
client dereferences the missing field (`nodeInfo.children!` fed to
`concatUint8Array`) and crashes with a `TypeError`, aborting the game
(second conjunct). -/
theorem c4_absent_children_field_aborts_instead_of_losing :
    treeVsTree clientNodeScenario proverNodeBadHash proverNodeNoChildren
      nodeAB nodeAB 1 nodeAB nodeAB 0 = .ok (.inl false) ∧
    treeVsTree clientNodeScenario proverNodeAB proverNodeNoChildren
      nodeAB nodeAB 1 nodeAB nodeAB 0 = .error .typeError := by
  exact ⟨rfl, rfl⟩

/-- Claim C5: the claim says the period-1 updates are obtained through the
prover-interface operation `getSyncUpdates(period - 1, 1)`; the code instead
invokes a `getSyncUpdate` method absent from the `IProver` interface.  For a
prover implementing exactly the declared interface (first conjunct: it has no
`getSyncUpdate` method; it does carry `getSyncUpdates`), the period-1 dispute
reaches the update fetch — both disputed committees and the previous
committee pass their Merkle checks in this scenario — and the client crashes
with a `TypeError` instead of calling `getSyncUpdates`. -/
theorem c5_interface_only_prover_crashes_update_fetch :
    proverIfaceHonest.getSyncUpdate = none ∧
    proverIfaceDeviant.getSyncUpdate = none ∧
    getVerifiedSyncCommittee clientIfaceScenario proverIfaceHonest (some 1) peaksTwo =
      .ok (some committeeP1) ∧
    getVerifiedSyncCommittee clientIfaceScenario proverIfaceDeviant (some 1) peaksTwoBad =
      .ok (some committeeP1Bad) ∧
    getVerifiedSyncCommittee clientIfaceScenario proverIfaceHonest (some 0) peaksTwo =
      .ok (some committeeP0) ∧
    checkNodeAndPrevUpdate clientIfaceScenario proverIfaceHonest proverIfaceDeviant
      peaksTwo peaksTwoBad 1 = .error .typeError := by
  exact ⟨rfl, rfl, rfl, rfl, rfl, rfl⟩

/-- Claim C6: the claim that `syncUpdateVerify` turns any parse error into
`false` and never throws is false on the code: `PublicKey.fromBytes` runs on
every previous-committee key outside the try/catch (dummy-store.ts line 198),
so an unparseable key makes the function throw.  Here the committee
comparison passes (`nextCommittee` equals the current committee) and the
single previous-committee key `[0]` fails to parse. -/
theorem c6_syncUpdateVerify_throws_on_unparseable_prev_key :
    updateBadPrev.header.nextCommittee = [[2]] ∧
    dummySyncUpdateVerify toyBls consHash numBytes [[0]] [[2]] updateBadPrev =
      .error (.thrown "pubkey deserialization failed") := by
  exact ⟨rfl, rfl⟩

/-- Claim C7: the tournament initialises `winners` to the first audited
survivor (a lone survivor wins with no games); a survivor whose root is
byte-equal to `winners[0]`'s is appended without a game; any other survivor
triggers exactly one `peaksVsPeaks` game against `winners[0]`, after which
the challenger is discarded if it loses and replaces the entire winners list
if it wins; and at most one game is played per processed survivor. -/
theorem c7_tournament_pool_and_game_structure {U : Type} (c : Client U) :
    (∀ p0, tournament c [p0] = .ok ([some p0], [])) ∧
    (∀ w0 ws p rest games, w0.root = p.root →
      tournamentGo c w0 ws (p :: rest) games = tournamentGo c w0 (ws ++ [p]) rest games) ∧
    (∀ w0 ws p rest games pr1 pr2, w0.root ≠ p.root →
      c.provers.get? w0.index = some pr1 → c.provers.get? p.index = some pr2 →
      peaksVsPeaks c pr1 pr2 w0.peaks p.peaks = .ok true →
      tournamentGo c w0 ws (p :: rest) games =
        tournamentGo c w0 ws rest (games ++ [(w0, p, true)])) ∧
    (∀ w0 ws p rest games pr1 pr2, w0.root ≠ p.root →
      c.provers.get? w0.index = some pr1 → c.provers.get? p.index = some pr2 →
      peaksVsPeaks c pr1 pr2 w0.peaks p.peaks = .ok false →
      tournamentGo c w0 ws (p :: rest) games =
        tournamentGo c p [] rest (games ++ [(w0, p, false)])) ∧
    (∀ rest w0 ws games ws2 games2,
      tournamentGo c w0 ws rest games = .ok (ws2, games2) →
      games2.length ≤ games.length + rest.length) := by
  refine ⟨fun p0 => rfl, ?_, ?_, ?_, ?_⟩
  · intro w0 ws p rest games hr
    simp only [tournamentGo]
    rw [if_pos hr]
  · intro w0 ws p rest games pr1 pr2 hr hg1 hg2 hgame
    simp only [tournamentGo]
    rw [if_neg hr, hg1, hg2]
    dsimp only
    rw [hgame]
    dsimp only
    rw [if_pos rfl]
  · intro w0 ws p rest games pr1 pr2 hr hg1 hg2 hgame
    simp only [tournamentGo]
    rw [if_neg hr, hg1, hg2]
    dsimp only
    rw [hgame]
    dsimp only
    rw [if_neg (by simp)]
  · intro rest
    induction rest with
    | nil =>
      intro w0 ws games ws2 games2 h
      simp only [tournamentGo] at h
      injection h with h'
      injection h' with ha hb
      subst hb
      simp
    | cons p rest ih =>
      intro w0 ws games ws2 games2 h
      simp only [tournamentGo] at h
      by_cases hr : w0.root = p.root
      · rw [if_pos hr] at h
        have := ih w0 (ws ++ [p]) games ws2 games2 h
        simp at this ⊢
        omega
      · rw [if_neg hr] at h
        cases hg1 : c.provers.get? w0.index with
        | none =>
          rw [hg1] at h
          cases hg2 : c.provers.get? p.index <;> rw [hg2] at h <;> simp_all
        | some pr1 =>
          rw [hg1] at h
          cases hg2 : c.provers.get? p.index with
          | none => rw [hg2] at h; simp_all
          | some pr2 =>
            rw [hg2] at h
            dsimp only at h
            cases hgame : peaksVsPeaks c pr1 pr2 w0.peaks p.peaks with
            | error e => rw [hgame] at h; simp_all
            | ok honest =>
              rw [hgame] at h
              dsimp only at h
              cases honest with
              | true =>
                have := ih w0 ws (games ++ [(w0, p, true)]) ws2 games2 h
                simp at this ⊢
                omega
              | false =>
                have := ih p [] (games ++ [(w0, p, false)]) ws2 games2 h
                simp at this ⊢
                omega

/-- Witness for claim C7: a challenger with a different root beats the
current representative in its single game and replaces the whole winners
list. -/
theorem c7_tournament_witness :
    tournamentGo clientCopierScenario infoCopier [] [infoFake] [] =
      .ok ([infoFake], [(infoCopier, infoFake, false)]) := by
  have h := (c7_tournament_pool_and_game_structure clientCopierScenario).2.2.2.1
    infoCopier [] infoFake [] [] proverCopier proverFakeChain (by decide) rfl rfl rfl
  rw [h]
  rfl

/-- Claim C8: after the tournament, `sync()` runs `getVerifiedSyncCommittee`
with `'latest'` on each winner in order, returning as soon as one verifies
(first conjunct), skipping a winner that fails (second conjunct), aborting
with the fatal `all winners cheated` error when the winners are exhausted
(third conjunct); `sync` is exactly this loop applied to the tournament
winners (fourth conjunct). -/
theorem c8_final_audit_adopts_first_verifying_winner {U : Type} (c : Client U) :
    (∀ w rest pr sc, c.provers.get? w.index = some pr →
      getVerifiedSyncCommittee c pr none w.peaks = .ok (some sc) →
      syncFinal c (some w :: rest) = .ok [{ w with syncCommittee := some sc }]) ∧
    (∀ w rest pr, c.provers.get? w.index = some pr →
      getVerifiedSyncCommittee c pr none w.peaks = .ok none →
      syncFinal c (some w :: rest) = syncFinal c rest) ∧
    (syncFinal c [] = .error (.thrown "all winners cheated")) ∧
    (∀ winners games, tournament c (auditProvers c) = .ok (winners, games) →
      sync c = syncFinal c winners) := by
  refine ⟨?_, ?_, rfl, ?_⟩
  · intro w rest pr sc hget hvsc
    simp only [syncFinal]
    rw [hget]
    dsimp only
    rw [hvsc]
  · intro w rest pr hget hvsc
    simp only [syncFinal]
    rw [hget]
    dsimp only
    rw [hvsc]
  · intro winners games h
    unfold sync
    rw [h]

/-- Witness for claim C8: the fake prover's record is the sole winner, its
latest committee verifies, and the final loop returns exactly its adopted
record. -/
theorem c8_final_audit_witness :
    syncFinal clientCopierScenario [some infoFake] =
      .ok [⟨rootFake, peaksFake, 2, some fakeCommittee⟩] :=
  (c8_final_audit_adopts_first_verifying_winner clientCopierScenario).1
    infoFake [] proverFakeChain fakeCommittee rfl rfl

/-- Claim C9: whenever `sync()` returns normally, the returned list holds
exactly one record, the adoption of the first tournament winner whose latest
committee verifies — even when several byte-equal provers were pooled into
the winners list. -/
theorem c9_sync_ok_returns_single_first_verified_record {U : Type} (c : Client U)
    (out : List ProverInfo) (h : sync c = .ok out) :
    out.length = 1 ∧ ∃ winners games,
      tournament c (auditProvers c) = .ok (winners, games) ∧
      isFirstVerifiedWinner c winners out := by
  unfold sync at h
  cases htour : tournament c (auditProvers c) with
  | error e => rw [htour] at h; exact absurd h (by simp)
  | ok wg =>
    obtain ⟨winners, games⟩ := wg
    rw [htour] at h
    dsimp only at h
    have hk := syncFinalOkChar c winners out h
    exact ⟨hk.1, winners, games, rfl, hk.2⟩

/-- Witness for claim C9: the single-honest-prover client returns exactly one
record, its first (and only) verified winner. -/
theorem c9_single_record_witness :
    [(⟨rootHonest, peaksHonest, 0, some genCommittee⟩ : ProverInfo)].length = 1 ∧
    ∃ winners games,
      tournament clientSingleHonest (auditProvers clientSingleHonest) = .ok (winners, games) ∧
      isFirstVerifiedWinner clientSingleHonest winners
        [⟨rootHonest, peaksHonest, 0, some genCommittee⟩] :=
  c9_sync_ok_returns_single_first_verified_record clientSingleHonest _ rfl

/-- Claim C10: when the initial MMR audit filters every prover, the
tournament runs on the empty survivor list and reads its element 0, yielding
the missing record (modelled `none`); `sync()` then fails by dereferencing
that missing record — a `TypeError`, not the descriptive
`all winners cheated` error — so freedom from this failure needs at least one
prover to pass the audit. -/
theorem c10_empty_audit_fails_with_missing_record_dereference {U : Type}
    (c : Client U) (h : auditProvers c = []) :
    tournament c (auditProvers c) = .ok ([none], []) ∧
    sync c = .error .typeError ∧
    sync c ≠ .error (.thrown "all winners cheated") := by
  have hs : sync c = .error .typeError := by
    unfold sync
    rw [h]
    rfl
  refine ⟨by rw [h]; rfl, hs, by rw [hs]; simp⟩

/-- Witness for claim C10: a client with no provers audits to the empty
survivor list and `sync` fails with the missing-record dereference. -/
theorem c10_empty_audit_witness :
    tournament clientNoProvers (auditProvers clientNoProvers) = .ok ([none], []) ∧
    sync clientNoProvers = .error .typeError ∧
    sync clientNoProvers ≠ .error (.thrown "all winners cheated") :=
  c10_empty_audit_fails_with_missing_record_dereference clientNoProvers rfl

end Superlight
